import Mathlib

/-!
Verification development for a small event-sourced task-tracking service
(`server.js` plus the browser presentation logic in `public/main.js`).

The embedding is shallow: each JavaScript function that the claims touch is
translated into an executable Lean definition.  File-system state is passed
explicitly (the log content as a string, a read that may fail as `Except`),
the wall clock is passed explicitly (the ISO timestamp string produced by
`new Date().toISOString()`, resp. `Date.now()` as an integer of
milliseconds), and JavaScript truthiness on the string/undefined fragment is
modelled by `Option String` together with `jsStrOr` / `jsTruthy`.

Modelling boundary: JSON values that the projection reads from the log are
modelled by `JsEvent`, a record of the exact fields the fold at
`server.js` lines 80-99 accesses; a log line whose `JSON.parse` throws is
modelled as `none`.  Fields carrying non-string JSON values (numbers,
objects) are outside the embedding; none of the claims concern them.
-/

namespace TaskTracker

/-- JavaScript `x || d` for `x` an optional string (`none` = the field is
absent / `undefined`): the empty string is falsy, so it also falls back. -/
def jsStrOr (o : Option String) (d : String) : String :=
  match o with
  | none => d
  | some s => if s = "" then d else s

/-- JavaScript truthiness of an optional string: present and non-empty. -/
def jsTruthy (o : Option String) : Prop :=
  o ≠ none ∧ o ≠ some ""

instance (o : Option String) : Decidable (jsTruthy o) := by
  unfold jsTruthy; infer_instance

/-- ECMAScript whitespace (WhiteSpace plus LineTerminator), the characters
`String.prototype.trim` removes. -/
def isJsWhitespace (c : Char) : Bool :=
  c = '\x09' || c = '\x0a' || c = '\x0b' || c = '\x0c' || c = '\x0d' || c = ' ' ||
  c = '\u00a0' || c = '\u1680' ||
  ('\u2000' ≤ c && c ≤ '\u200a') ||
  c = '\u2028' || c = '\u2029' || c = '\u202f' || c = '\u205f' || c = '\u3000' ||
  c = '\ufeff'

/-- JS `String.prototype.trim`: strip leading and trailing whitespace. -/
def jsTrim (s : String) : String :=
  String.mk (((s.data.dropWhile isJsWhitespace).reverse.dropWhile isJsWhitespace).reverse)

/-- A projected task, as built by `readProjection` (`server.js` 84-92).
The `name` field is copied from the event verbatim (no default), so it can
be absent when a foreign log line omits it; all other string fields are
defaulted to `""` by `||` and `priority` is coerced by `!!`. -/
structure Task where
  id : String
  name : Option String
  date : String
  time : String
  description : String
  priority : Bool
  createdAt : String
deriving DecidableEq, Repr

/-- The result of `JSON.parse` on a log line, restricted to the fields the
projection fold reads and the writers produce.  `priority` holds the
truthiness of the JSON `priority` value (the fold only ever applies `!!` to
it); an absent field is `none`. -/
structure JsEvent where
  type : Option String
  id : String
  name : Option String
  date : Option String
  time : Option String
  description : Option String
  priority : Bool
  createdAt : Option String
  deletedAt : Option String
deriving DecidableEq, Repr

/-- The create-event object built by the `POST /api/tasks` handler
(`server.js` 126-135): every field present, `priority` a real boolean. -/
structure CreateEvt where
  id : String
  name : String
  date : String
  time : String
  description : String
  priority : Bool
  createdAt : String
deriving DecidableEq, Repr

/-- The delete-event object built by the `DELETE /api/tasks/:id` handler
(`server.js` 150). -/
structure DeleteEvt where
  id : String
  deletedAt : String
deriving DecidableEq, Repr

/-- What `JSON.parse` yields on the serialized form of a create event: all
fields present (this is the round-trip of the objects `appendEvent` writes). -/
def CreateEvt.toJsEvent (e : CreateEvt) : JsEvent :=
  { type := some "create", id := e.id, name := some e.name,
    date := some e.date, time := some e.time,
    description := some e.description, priority := e.priority,
    createdAt := some e.createdAt, deletedAt := none }

/-- What `JSON.parse` yields on the serialized form of a delete event:
only `type`, `id`, `deletedAt` present (`!!undefined = false`). -/
def DeleteEvt.toJsEvent (d : DeleteEvt) : JsEvent :=
  { type := some "delete", id := d.id, name := none,
    date := none, time := none, description := none, priority := false,
    createdAt := none, deletedAt := some d.deletedAt }

/-!
JavaScript `Map` keyed by strings, as used by the projection fold: `set` of
an existing key replaces the value in place (insertion order preserved),
`set` of a fresh key appends, `delete` removes, `values()` lists values in
insertion order.
-/

/-- The projection map: association list in insertion order. -/
def TaskMap : Type := List (String × Task)

instance : DecidableEq TaskMap := by unfold TaskMap; infer_instance

/-- JS `Map.prototype.set`: replace in place if the key exists, else append. -/
def mapSet : TaskMap → String → Task → TaskMap
  | [], k, v => [(k, v)]
  | p :: ps, k, v => if p.1 = k then (k, v) :: ps else p :: mapSet ps k v

/-- JS `Map.prototype.delete`: drop the entry with the given key (keys are
unique in a JS map, so dropping every match is dropping the entry). -/
def mapDelete : TaskMap → String → TaskMap
  | [], _ => []
  | p :: ps, k => if p.1 = k then mapDelete ps k else p :: mapDelete ps k

/-- JS `Map.prototype.get`: the value stored under the given key. -/
def mapLookup : TaskMap → String → Option Task
  | [], _ => none
  | p :: ps, k => if p.1 = k then some p.2 else mapLookup ps k

/-- The keys of the projection map, in insertion order. -/
def mapKeys (m : TaskMap) : List String :=
  m.map (fun p => p.1)

/-- The task stored by the create branch of the fold (`server.js` 84-92).
`now` is the ISO timestamp `new Date().toISOString()` would yield if the
`createdAt` fallback fires during this replay. -/
def mkTask (now : String) (e : JsEvent) : Task :=
  { id := e.id, name := e.name,
    date := jsStrOr e.date "",
    time := jsStrOr e.time "",
    description := jsStrOr e.description "",
    priority := e.priority,
    createdAt := jsStrOr e.createdAt now }

/-- One iteration of the fold body for a successfully parsed line
(`server.js` 83-95): create inserts/overwrites, delete removes, any other
`type` is a no-op. -/
def applyEvt (now : String) (m : TaskMap) (e : JsEvent) : TaskMap :=
  if e.type = some "create" then mapSet m e.id (mkTask now e)
  else if e.type = some "delete" then mapDelete m e.id
  else m

/-- One iteration of the fold over a raw line (`server.js` 80-99): a line
whose `JSON.parse` throws (`none`) is skipped. -/
def foldLine (now : String) (m : TaskMap) (l : Option JsEvent) : TaskMap :=
  match l with
  | none => m
  | some e => applyEvt now m e

/-- The fold over the non-empty lines of the log. -/
def runLines (now : String) (m : TaskMap) (lines : List (Option JsEvent)) : TaskMap :=
  lines.foldl (foldLine now) m

/-- `readProjection` (`server.js` 71-105): the read result is passed in
explicitly (`Except.error` = `fs.readFileSync` threw).  The outer catch
swallows the read failure and returns `[]`; otherwise the parsed lines are
folded and `Array.from(tasks.values())` lists the tasks in map order. -/
def readProjection (r : Except Unit (List (Option JsEvent))) (now : String) : List Task :=
  match r with
  | .error _ => []
  | .ok lines => (runLines now [] lines).map (fun p => p.2)

/-!
HTTP handler models.  A response is its status code plus the JSON envelope
fields the handlers produce; effects on the log are returned explicitly as
the list of events appended.  `appendOk` models whether
`fs.appendFileSync` succeeds (its failure is what the catch blocks see).
-/

/-- The JSON envelope + status a task API handler responds with. -/
structure ApiResponse where
  status : Nat
  ok : Bool
  error : Option String := none
  id : Option String := none
  tasks : Option (List Task) := none
deriving DecidableEq, Repr

/-- `GET /api/tasks` (`server.js` 108-116).  `readProjection` is total (it
catches its own read failure), so the catch branch of the handler is
unreachable and the handler always answers 200 with the projected tasks. -/
def getTasksHandler (r : Except Unit (List (Option JsEvent))) (now : String) : ApiResponse :=
  { status := 200, ok := true, tasks := some (readProjection r now) }

/-- The request body of `POST /api/tasks`, restricted to string-or-absent
fields (`priority` enters the handler only through `!!priority`, so it is
modelled by its truthiness). -/
structure CreateReq where
  name : Option String
  date : Option String
  time : Option String
  description : Option String
  priority : Bool
deriving DecidableEq, Repr

/-- The event object built by the `POST /api/tasks` handler (`server.js`
126-135) once `name` passed the `!name` check; `name` is the destructured
body field, `i` the fresh `makeId()`, `now` the append-time ISO stamp. -/
def buildCreateEvent (name : String) (req : CreateReq) (i now : String) : CreateEvt :=
  { id := i,
    name := jsTrim name,
    date := if req.priority then "" else jsStrOr req.date "",
    time := if req.priority then "" else jsStrOr req.time "",
    description := jsStrOr req.description "",
    priority := req.priority,
    createdAt := now }

/-- `POST /api/tasks` (`server.js` 119-143): `!name` (falsy = absent or
empty, checked before any trimming) gives 400; otherwise the event is built
and appended — on append failure the catch answers 500 and nothing is
recorded.  The second component is the list of events appended to the log. -/
def postTasksHandler (req : CreateReq) (i now : String) (appendOk : Bool) :
    ApiResponse × List CreateEvt :=
  match req.name with
  | none => ({ status := 400, ok := false, error := some "Name is required." }, [])
  | some n =>
    if n = "" then
      ({ status := 400, ok := false, error := some "Name is required." }, [])
    else if appendOk then
      ({ status := 201, ok := true, id := some i }, [buildCreateEvent n req i now])
    else
      ({ status := 500, ok := false, error := some "Failed to create task." }, [])

/-- `DELETE /api/tasks/:id` (`server.js` 146-156): `!id` gives 400, else a
delete event is appended (no existence check) and the handler answers 200. -/
def deleteTasksHandler (i now : String) (appendOk : Bool) :
    ApiResponse × List DeleteEvt :=
  if i = "" then ({ status := 400, ok := false, error := some "Task ID required." }, [])
  else if appendOk then ({ status := 200, ok := true }, [⟨i, now⟩])
  else ({ status := 500, ok := false, error := some "Failed to delete task." }, [])

/-- The counters of the `GET /metrics` response (`server.js` 29-46); the
ambient `server_timestamp` / `server_uptime` fields carry no task content
and are omitted. -/
structure Metrics where
  total_tasks : Nat
  priority_tasks : Nat
  regular_tasks : Nat
  tasks_with_dates : Nat
  tasks_with_descriptions : Nat
deriving DecidableEq, Repr

/-- The metrics computed from the projected task list (`server.js` 32-40);
`t.date && t.date !== ''` on an always-string field is just non-emptiness. -/
def metricsOf (tasks : List Task) : Metrics :=
  { total_tasks := tasks.length,
    priority_tasks := (tasks.filter (fun t => t.priority)).length,
    regular_tasks := (tasks.filter (fun t => !t.priority)).length,
    tasks_with_dates := (tasks.filter (fun t => t.date ≠ "")).length,
    tasks_with_descriptions := (tasks.filter (fun t => t.description ≠ "")).length }

/-- `GET /metrics` (`server.js` 29-46): `readProjection` is total, so the
catch branch is unreachable and the handler always answers the counters. -/
def metricsHandler (r : Except Unit (List (Option JsEvent))) (now : String) : Metrics :=
  metricsOf (readProjection r now)

/-!
The raw log layer (`server.js` 63-68 and 76-77).  Log content is the UTF-8
text of the file; `appendEvent` appends one serialized line plus LF;
`data.split(chr 10).filter(Boolean)` is modelled by `splitLines` on the
character list followed by dropping empty lines.
-/

/-- JS `String.prototype.split` at the newline character: every newline is
a separator, so the result always has one more piece than there are
newlines (and is never empty). -/
def splitLines : List Char → List (List Char)
  | [] => [[]]
  | c :: cs =>
    if c = '\n' then [] :: splitLines cs
    else
      match splitLines cs with
      | [] => [[c]]
      | l :: ls => (c :: l) :: ls

/-- `data.split(newline).filter(Boolean)` (`server.js` 77): the list of
non-empty lines of the log content, oldest first. -/
def logLines (content : String) : List String :=
  ((splitLines content.data).filter (fun l => !l.isEmpty)).map String.mk

/-- Lower-case hexadecimal digit characters, for the `\u00XY` escapes
(only ever applied to values below 16). -/
def hexDigit : Nat → Char
  | 0 => '0' | 1 => '1' | 2 => '2' | 3 => '3' | 4 => '4'
  | 5 => '5' | 6 => '6' | 7 => '7' | 8 => '8' | 9 => '9'
  | 10 => 'a' | 11 => 'b' | 12 => 'c' | 13 => 'd' | 14 => 'e'
  | _ => 'f'

/-- JSON string escaping of a single character, as `JSON.stringify`
performs it: quote, backslash and the named control characters get
two-character escapes, other control characters get a `\u00XY` escape,
everything else is emitted verbatim. -/
def jsonEscapeChar (c : Char) : List Char :=
  if c = '"' then ['\\', '"']
  else if c = '\\' then ['\\', '\\']
  else if c = '\n' then ['\\', 'n']
  else if c = '\r' then ['\\', 'r']
  else if c = '\t' then ['\\', 't']
  else if c = '\x08' then ['\\', 'b']
  else if c = '\x0c' then ['\\', 'f']
  else if c.toNat < 32 then
    ['\\', 'u', '0', '0', hexDigit (c.toNat / 16), hexDigit (c.toNat % 16)]
  else [c]

/-- `JSON.stringify` of a string value: escaped content between quotes. -/
def jsonQuote (s : String) : String :=
  "\"" ++ String.mk ((s.data.map jsonEscapeChar).flatten) ++ "\""

/-- `JSON.stringify` of a boolean value. -/
def jsonBool (b : Bool) : String :=
  if b then "true" else "false"

/-- `JSON.stringify` of the create-event object literal (`server.js`
126-135): keys in insertion order. -/
def serializeCreateEvt (e : CreateEvt) : String :=
  "\x7b\"type\":\"create\",\"id\":" ++ jsonQuote e.id ++
  ",\"name\":" ++ jsonQuote e.name ++
  ",\"date\":" ++ jsonQuote e.date ++
  ",\"time\":" ++ jsonQuote e.time ++
  ",\"description\":" ++ jsonQuote e.description ++
  ",\"priority\":" ++ jsonBool e.priority ++
  ",\"createdAt\":" ++ jsonQuote e.createdAt ++ "\x7d"

/-- `JSON.stringify` of the delete-event object literal (`server.js` 150). -/
def serializeDeleteEvt (d : DeleteEvt) : String :=
  "\x7b\"type\":\"delete\",\"id\":" ++ jsonQuote d.id ++
  ",\"deletedAt\":" ++ jsonQuote d.deletedAt ++ "\x7d"

/-- The two event objects `appendEvent` is ever called with. -/
inductive EvtObj where
  | create (e : CreateEvt)
  | delete (d : DeleteEvt)
deriving DecidableEq, Repr

/-- `JSON.stringify(evtObj)` for the two appended object shapes. -/
def serializeEvt : EvtObj → String
  | .create e => serializeCreateEvt e
  | .delete d => serializeDeleteEvt d

/-- `appendEvent` (`server.js` 63-68): the new file content is the old
content with the serialized event plus a trailing LF appended. -/
def appendEvent (content : String) (evt : EvtObj) : String :=
  content ++ serializeEvt evt ++ "\n"

/-- The content of a log built from the given lines, each LF-terminated:
this characterizes exactly the file contents reachable by `ensureEventFile`
(empty) followed by any number of `appendEvent` calls. -/
def linesJoin : List String → String
  | [] => ""
  | l :: ls => l ++ "\n" ++ linesJoin ls

/-- The string contains no LF character. -/
def noNL (s : String) : Prop := '\n' ∉ s.data

instance (s : String) : Decidable (noNL s) := by
  unfold noNL; infer_instance

/-!
The presentation layer (`public/main.js`).  `Date.now()` is passed in as an
integer of milliseconds; local time is interpreted at a fixed zero UTC
offset (the grouping claims do not depend on the offset).
-/

/-- A decimal digit character to its value. -/
def digitVal (c : Char) : Nat := c.toNat - '0'.toNat

/-- JS `Number(str)` on the optional-sign decimal-integer fragment:
whitespace is trimmed, the empty string is 0, anything else that is not an
optionally signed digit string is NaN (`none`).  (Fractional, hexadecimal
and infinite forms are outside the embedding; no claim depends on them.) -/
def jsNumber (s : String) : Option Int :=
  let t := (jsTrim s).data
  if t = [] then some 0
  else
    let (sign, digits) :=
      match t with
      | '-' :: rest => ((-1 : Int), rest)
      | '+' :: rest => ((1 : Int), rest)
      | _ => ((1 : Int), t)
    if digits ≠ [] ∧ digits.all (fun c => c.isDigit) then
      some (sign * Int.ofNat (digits.foldl (fun a c => a * 10 + digitVal c) 0))
    else none

/-- Days from the civil epoch 1970-01-01 for a month already normalized to
1..12; the day may be any integer (overflow shifts the date, as in JS). -/
def daysFromCivil (y m d : Int) : Int :=
  let y := if m ≤ 2 then y - 1 else y
  let era := Int.fdiv y 400
  let yoe := y - era * 400
  let mp := Int.fmod (m + 9) 12
  let doy := Int.fdiv (153 * mp + 2) 5 + d - 1
  let doe := yoe * 365 + Int.fdiv yoe 4 - Int.fdiv yoe 100 + doy
  era * 146097 + doe - 719468

/-- The time value of `new Date(y, mon, d, hh, mm, 0, 0)` in milliseconds:
years 0..99 map to 1900..1999, month overflow carries into the year. -/
def jsDateMs (y mon d hh mm : Int) : Int :=
  let y := if 0 ≤ y ∧ y ≤ 99 then y + 1900 else y
  let yy := y + Int.fdiv mon 12
  let mn := Int.fmod mon 12
  (daysFromCivil yy (mn + 1) d) * 86400000 + hh * 3600000 + mm * 60000

/-- JS `String.prototype.split` at a single-character separator (the
frontend splits dates at dashes and times at colons). -/
def splitOnChar (sep : Char) : List Char → List (List Char)
  | [] => [[]]
  | c :: cs =>
    if c = sep then [] :: splitOnChar sep cs
    else
      match splitOnChar sep cs with
      | [] => [[c]]
      | l :: ls => (c :: l) :: ls

/-- `taskDueTs` (`main.js` 56-62): `NaN` is modelled as `none`.  An empty
(falsy) date or time short-circuits to NaN; otherwise the date is split at
dashes and the time at colons, missing or non-numeric year/month/day poison
the date, while hour and minute fall back to 0 under `|| 0`. -/
def taskDueTs (task : Task) : Option Int :=
  if task.date = "" ∨ task.time = "" then none
  else
    let dp := (splitOnChar '-' task.date.data).map (fun l => jsNumber (String.mk l))
    let tp := (splitOnChar ':' task.time.data).map (fun l => jsNumber (String.mk l))
    let hh := (tp.getD 0 none).getD 0
    let mm := (tp.getD 1 none).getD 0
    match dp.getD 0 none, dp.getD 1 none, dp.getD 2 none with
    | some y, some m, some d => some (jsDateMs y (m - 1) d hh mm)
    | _, _, _ => none

/-- The three presentation groups of `render` (`main.js` 64-100). -/
inductive TaskGroup where
  | priority
  | scheduled
  | active
deriving DecidableEq, Repr

/-- The classification a task receives in the grouping loop of `render`
(`main.js` 73-86): priority tasks are pinned, an unparseable due timestamp
means active, and only a strictly future due timestamp means scheduled. -/
def classify (now : Int) (t : Task) : TaskGroup :=
  if t.priority then .priority
  else
    match taskDueTs t with
    | none => .active
    | some due => if due > now then .scheduled else .active

/-- The fold over a list of already-parsed events (what `runLines` does
once the skipped lines are gone). -/
def runEvents (now : String) (m : TaskMap) (evts : List JsEvent) : TaskMap :=
  evts.foldl (applyEvt now) m

/-- Whether an event is one the fold acts on for the given id: a create or
delete whose `id` field matches. -/
def touches (i : String) (e : JsEvent) : Bool :=
  (e.type == some "create" || e.type == some "delete") && e.id == i

/-- Specification-side reading of the claim: the last create/delete event
for an id decides its projection entry.  This is the claim wording, to be
compared with the fold implemented by `readProjection`. -/
def specLastWins (now : String) (evts : List JsEvent) (i : String) : Option Task :=
  match (evts.filter (touches i)).getLast? with
  | some e => if e.type = some "create" then some (mkTask now e) else none
  | none => none

/-!
Lemmas about the JS map model.
-/

theorem mapLookup_set_self (m : TaskMap) (k : String) (v : Task) :
    mapLookup (mapSet m k v) k = some v := by
  induction m with
  | nil => simp [mapSet, mapLookup]
  | cons p ps ih =>
    by_cases h : p.1 = k <;> simp [mapSet, mapLookup, h, ih]

theorem mapLookup_set_ne (m : TaskMap) (k k' : String) (v : Task) (h : k' ≠ k) :
    mapLookup (mapSet m k v) k' = mapLookup m k' := by
  induction m with
  | nil => simp [mapSet, mapLookup, Ne.symm h]
  | cons p ps ih =>
    by_cases hp : p.1 = k
    · simp [mapSet, mapLookup, hp, Ne.symm h]
    · by_cases hp' : p.1 = k' <;> simp [mapSet, mapLookup, hp, hp', ih, h]

theorem mapLookup_delete_self (m : TaskMap) (k : String) :
    mapLookup (mapDelete m k) k = none := by
  induction m with
  | nil => simp [mapDelete, mapLookup]
  | cons p ps ih =>
    by_cases h : p.1 = k <;> simp [mapDelete, mapLookup, h, ih]

theorem mapLookup_delete_ne (m : TaskMap) (k k' : String) (h : k' ≠ k) :
    mapLookup (mapDelete m k) k' = mapLookup m k' := by
  induction m with
  | nil => simp [mapDelete, mapLookup]
  | cons p ps ih =>
    by_cases hp : p.1 = k
    · simp [mapDelete, mapLookup, hp, Ne.symm h, ih]
    · by_cases hp' : p.1 = k' <;> simp [mapDelete, mapLookup, hp, hp', ih, h]

theorem mapDelete_delete (m : TaskMap) (k : String) :
    mapDelete (mapDelete m k) k = mapDelete m k := by
  induction m with
  | nil => simp [mapDelete]
  | cons p ps ih =>
    by_cases h : p.1 = k <;> simp [mapDelete, h, ih]

theorem mapDelete_not_mem (m : TaskMap) (k : String) (h : k ∉ mapKeys m) :
    mapDelete m k = m := by
  induction m with
  | nil => simp [mapDelete]
  | cons p ps ih =>
    simp only [mapKeys, List.map_cons, List.mem_cons, not_or] at h
    simp [mapDelete, Ne.symm h.1, ih (by simpa [mapKeys] using h.2)]

theorem mapKeys_set_not_mem (m : TaskMap) (k : String) (v : Task) (h : k ∉ mapKeys m) :
    mapKeys (mapSet m k v) = mapKeys m ++ [k] := by
  induction m with
  | nil => simp [mapSet, mapKeys]
  | cons p ps ih =>
    simp only [mapKeys, List.map_cons, List.mem_cons, not_or] at h
    have hps : k ∉ mapKeys ps := by simpa [mapKeys] using h.2
    show mapKeys (if p.1 = k then (k, v) :: ps else p :: mapSet ps k v) = _
    rw [if_neg (Ne.symm h.1)]
    show p.1 :: mapKeys (mapSet ps k v) = _
    rw [ih hps]
    rfl

theorem length_mapSet_not_mem (m : TaskMap) (k : String) (v : Task) (h : k ∉ mapKeys m) :
    (mapSet m k v).length = m.length + 1 := by
  induction m with
  | nil => simp [mapSet]
  | cons p ps ih =>
    simp only [mapKeys, List.map_cons, List.mem_cons, not_or] at h
    simp [mapSet, Ne.symm h.1, ih (by simpa [mapKeys] using h.2)]

theorem mem_mapKeys_set (m : TaskMap) (k k0 : String) (v : Task)
    (h : k ∈ mapKeys (mapSet m k0 v)) : k ∈ mapKeys m ∨ k = k0 := by
  induction m with
  | nil => simpa [mapSet, mapKeys, eq_comm] using h
  | cons p ps ih =>
    by_cases hp : p.1 = k0
    · simp only [mapSet, hp, if_true, mapKeys, List.map_cons, List.mem_cons] at h ⊢
      rcases h with h | h
      · exact Or.inr h
      · exact Or.inl (Or.inr h)
    · simp only [mapSet, hp, if_false, mapKeys, List.map_cons, List.mem_cons] at h ⊢
      rcases h with h | h
      · exact Or.inl (Or.inl h)
      · rcases ih h with h | h
        · exact Or.inl (Or.inr h)
        · exact Or.inr h

theorem mem_mapKeys_delete (m : TaskMap) (k k0 : String)
    (h : k ∈ mapKeys (mapDelete m k0)) : k ∈ mapKeys m := by
  induction m with
  | nil => simpa [mapDelete] using h
  | cons p ps ih =>
    by_cases hp : p.1 = k0
    · simp only [mapDelete, hp, if_true] at h
      exact (by simp [mapKeys]; exact Or.inr (by simpa [mapKeys] using ih h))
    · simp only [mapDelete, hp, if_false, mapKeys, List.map_cons, List.mem_cons] at h ⊢
      rcases h with h | h
      · exact Or.inl h
      · exact Or.inr (by simpa [mapKeys] using ih (by simpa [mapKeys] using h))

/-!
Lemmas about the projection fold.
-/

theorem runLines_append (now : String) (m : TaskMap) (a b : List (Option JsEvent)) :
    runLines now m (a ++ b) = runLines now (runLines now m a) b := by
  simp [runLines, List.foldl_append]

theorem runLines_skip (now : String) (m : TaskMap) (a b : List (Option JsEvent)) :
    runLines now m (a ++ none :: b) = runLines now m (a ++ b) := by
  simp [runLines, List.foldl_append, foldLine]

theorem runLines_map_some (now : String) (m : TaskMap) (evts : List JsEvent) :
    runLines now m (evts.map some) = runEvents now m evts := by
  induction evts generalizing m with
  | nil => rfl
  | cons e es ih =>
    show List.foldl (foldLine now) (foldLine now m (some e)) (es.map some)
      = List.foldl (applyEvt now) (applyEvt now m e) es
    exact ih (applyEvt now m e)

theorem getLast?_cons_of_ne_nil {α : Type} (a : α) (l : List α) (h : l ≠ []) :
    (a :: l).getLast? = l.getLast? := by
  cases l with
  | nil => exact absurd rfl h
  | cons b bs => exact List.getLast?_cons_cons

/-- The fold result at a key is decided by the last create/delete event for
that key, and by the starting map if there is none. -/
theorem mapLookup_runEvents (now i : String) (evts : List JsEvent) :
    ∀ m : TaskMap,
      mapLookup (runEvents now m evts) i =
        match (evts.filter (touches i)).getLast? with
        | some e => if e.type = some "create" then some (mkTask now e) else none
        | none => mapLookup m i := by
  induction evts with
  | nil => intro m; rfl
  | cons e es ih =>
    intro m
    have step : runEvents now m (e :: es) = runEvents now (applyEvt now m e) es := rfl
    rw [step, ih (applyEvt now m e)]
    by_cases ht : touches i e = true
    · -- the head event matters for this id
      have hid : e.id = i := by
        have := ht
        simp only [touches, Bool.and_eq_true, Bool.or_eq_true, beq_iff_eq] at this
        exact this.2
      have htype : e.type = some "create" ∨ e.type = some "delete" := by
        have := ht
        simp only [touches, Bool.and_eq_true, Bool.or_eq_true, beq_iff_eq] at this
        exact this.1
      rw [List.filter_cons_of_pos ht]
      cases hl : (es.filter (touches i)).getLast? with
      | some e' =>
        rw [getLast?_cons_of_ne_nil e _ (by
          intro hnil
          rw [hnil] at hl
          simp at hl), hl]
      | none =>
        have : es.filter (touches i) = [] := List.getLast?_eq_none_iff.mp hl
        rw [this]
        simp only [List.getLast?_singleton]
        rcases htype with hc | hd
        · simp [applyEvt, hc, hid, mapLookup_set_self]
        · have hnc : ¬ e.type = some "create" := by simp [hd]
          simp [applyEvt, hd, hnc, hid, mapLookup_delete_self]
    · -- the head event is skipped for this id
      rw [List.filter_cons_of_neg (by simpa using ht)]
      cases hl : (es.filter (touches i)).getLast? with
      | some e' => rfl
      | none =>
        have hni : ¬ (e.id = i ∧ (e.type = some "create" ∨ e.type = some "delete")) := by
          intro hcon
          apply ht
          simp only [touches, Bool.and_eq_true, Bool.or_eq_true, beq_iff_eq]
          exact ⟨hcon.2, hcon.1⟩
        by_cases hc : e.type = some "create"
        · have hne : i ≠ e.id := fun hh => hni ⟨hh.symm, Or.inl hc⟩
          simp [applyEvt, hc, mapLookup_set_ne m e.id i _ hne]
        · by_cases hd : e.type = some "delete"
          · have hne : i ≠ e.id := fun hh => hni ⟨hh.symm, Or.inr hd⟩
            simp [applyEvt, hc, hd, mapLookup_delete_ne m e.id i hne]
          · simp [applyEvt, hc, hd]

/-- Every key of the fold result was a key of the starting map or the id of
a create event in the folded list. -/
theorem mem_mapKeys_runEvents (now k : String) (evts : List JsEvent) :
    ∀ m : TaskMap, k ∈ mapKeys (runEvents now m evts) →
      k ∈ mapKeys m ∨ ∃ e ∈ evts, e.type = some "create" ∧ e.id = k := by
  induction evts with
  | nil => intro m h; exact Or.inl h
  | cons e es ih =>
    intro m h
    have h' := ih (applyEvt now m e) h
    rcases h' with h' | ⟨e', he', ht⟩
    · by_cases hc : e.type = some "create"
      · rw [show applyEvt now m e = mapSet m e.id (mkTask now e) by simp [applyEvt, hc]] at h'
        rcases mem_mapKeys_set m k e.id (mkTask now e) h' with hm | hk
        · exact Or.inl hm
        · exact Or.inr ⟨e, List.mem_cons_self e es, hc, hk.symm⟩
      · by_cases hd : e.type = some "delete"
        · rw [show applyEvt now m e = mapDelete m e.id by simp [applyEvt, hc, hd]] at h'
          exact Or.inl (mem_mapKeys_delete m k e.id h')
        · rw [show applyEvt now m e = m by simp [applyEvt, hc, hd]] at h'
          exact Or.inl h'
    · exact Or.inr ⟨e', List.mem_cons_of_mem e he', ht⟩

/-- Folding creates with fresh, pairwise distinct ids grows the map by one
entry per event. -/
theorem length_runEvents_creates (now : String) (evts : List JsEvent) :
    ∀ m : TaskMap,
      (∀ e ∈ evts, e.type = some "create") →
      (evts.map (fun e => e.id)).Nodup →
      (∀ e ∈ evts, e.id ∉ mapKeys m) →
      (runEvents now m evts).length = m.length + evts.length := by
  induction evts with
  | nil => intro m _ _ _; rfl
  | cons e es ih =>
    intro m hall hnd hfresh
    have hc : e.type = some "create" := hall e (List.mem_cons_self e es)
    have hme : e.id ∉ mapKeys m := hfresh e (List.mem_cons_self e es)
    have step : runEvents now m (e :: es) = runEvents now (mapSet m e.id (mkTask now e)) es := by
      simp [runEvents, List.foldl_cons, applyEvt, hc]
    rw [step]
    have hnd' : (es.map (fun e => e.id)).Nodup := (List.nodup_cons.mp hnd).2
    have hnotin : e.id ∉ es.map (fun e => e.id) := (List.nodup_cons.mp hnd).1
    have hfresh' : ∀ e' ∈ es, e'.id ∉ mapKeys (mapSet m e.id (mkTask now e)) := by
      intro e' he'
      rw [mapKeys_set_not_mem m e.id (mkTask now e) hme]
      simp only [List.mem_append, List.mem_singleton, not_or]
      refine ⟨hfresh e' (List.mem_cons_of_mem e he'), ?_⟩
      intro hh
      exact hnotin (hh ▸ List.mem_map_of_mem (fun e => e.id) he')
    rw [ih (mapSet m e.id (mkTask now e)) (fun e' he' => hall e' (List.mem_cons_of_mem e he'))
      hnd' hfresh']
    rw [length_mapSet_not_mem m e.id (mkTask now e) hme]
    simp [Nat.add_assoc, Nat.add_comm 1]

/-!
Lemmas about the raw log layer: line splitting and JSON serialization.
-/

theorem splitLines_ne_nil (cs : List Char) : splitLines cs ≠ [] := by
  induction cs with
  | nil => simp [splitLines]
  | cons c cs ih =>
    by_cases h : c = '\n'
    · simp [splitLines, h]
    · simp only [splitLines, h, if_false]
      cases hs : splitLines cs with
      | nil => simp
      | cons l ls => simp

theorem splitLines_cons_of_ne (c : Char) (cs : List Char) (h : ¬ c = '\n') :
    splitLines (c :: cs) =
      match splitLines cs with
      | [] => [[c]]
      | l :: ls => (c :: l) :: ls := by
  simp [splitLines, h]

theorem splitLines_append_nl (s t : List Char) (h : '\n' ∉ s) :
    splitLines (s ++ '\n' :: t) = s :: splitLines t := by
  induction s with
  | nil => simp [splitLines]
  | cons c cs ih =>
    have hc : ¬ c = '\n' := by
      intro hh
      exact h (hh ▸ List.mem_cons_self c cs)
    have hcs : '\n' ∉ cs := fun hh => h (List.mem_cons_of_mem c hh)
    rw [List.cons_append, splitLines_cons_of_ne c _ hc, ih hcs]

theorem data_linesJoin (ls : List String) :
    (linesJoin ls).data = (ls.map (fun l => l.data ++ ['\n'])).flatten := by
  induction ls with
  | nil => rfl
  | cons l ls ih =>
    show (l ++ "\n" ++ linesJoin ls).data = _
    rw [String.data_append, String.data_append, ih]
    simp

theorem splitLines_linesJoin_append (ls : List String) (r : List Char)
    (h : ∀ l ∈ ls, noNL l) :
    splitLines ((linesJoin ls).data ++ r) = ls.map String.data ++ splitLines r := by
  induction ls with
  | nil => rfl
  | cons l ls ih =>
    have hstep : (linesJoin (l :: ls)).data ++ r
        = l.data ++ '\n' :: ((linesJoin ls).data ++ r) := by
      show (l ++ "\n" ++ linesJoin ls).data ++ r = _
      rw [String.data_append, String.data_append]
      simp
    rw [hstep, splitLines_append_nl _ _ (h l (List.mem_cons_self l ls)),
      ih (fun l' hl' => h l' (List.mem_cons_of_mem l hl'))]
    rfl

theorem hexDigit_ne_nl (n : Nat) : hexDigit n ≠ '\n' := by
  unfold hexDigit
  split <;> decide

theorem jsonEscapeChar_no_nl (c : Char) : '\n' ∉ jsonEscapeChar c := by
  unfold jsonEscapeChar
  by_cases h1 : c = '"'
  · simp [h1]
  by_cases h2 : c = '\\'
  · simp [h1, h2]
  by_cases h3 : c = '\n'
  · simp [h1, h2, h3]
  by_cases h4 : c = '\r'
  · simp [h1, h2, h3, h4]
  by_cases h5 : c = '\t'
  · simp [h1, h2, h3, h4, h5]
  by_cases h6 : c = '\x08'
  · simp [h1, h2, h3, h4, h5, h6]
  by_cases h7 : c = '\x0c'
  · simp [h1, h2, h3, h4, h5, h6, h7]
  by_cases h8 : c.toNat < 32
  · simp only [h1, h2, h3, h4, h5, h6, h7, h8, if_false, if_true]
    intro hmem
    simp only [List.mem_cons, List.not_mem_nil, or_false] at hmem
    rcases hmem with h | h | h | h | h | h <;>
      first
        | exact absurd h.symm (by decide)
        | exact absurd h.symm (hexDigit_ne_nl _)
  · simp only [h1, h2, h3, h4, h5, h6, h7, h8, if_false]
    intro hmem
    simp only [List.mem_cons, List.not_mem_nil, or_false] at hmem
    exact h3 hmem.symm

theorem noNL_append (a b : String) (ha : noNL a) (hb : noNL b) : noNL (a ++ b) := by
  unfold noNL at *
  rw [String.data_append]
  simp [ha, hb]

theorem noNL_jsonQuote (s : String) : noNL (jsonQuote s) := by
  unfold jsonQuote
  apply noNL_append
  · apply noNL_append
    · decide
    · show '\n' ∉ (String.mk ((s.data.map jsonEscapeChar).flatten)).data
      simp only [List.mem_flatten, List.mem_map]
      rintro ⟨l, ⟨c, _, rfl⟩, hnl⟩
      exact jsonEscapeChar_no_nl c hnl
  · decide

theorem noNL_jsonBool (b : Bool) : noNL (jsonBool b) := by
  cases b <;> decide

theorem noNL_serializeEvt (evt : EvtObj) : noNL (serializeEvt evt) := by
  cases evt with
  | create e =>
    show noNL (serializeCreateEvt e)
    unfold serializeCreateEvt
    refine noNL_append _ _ (noNL_append _ _ (noNL_append _ _ (noNL_append _ _
      (noNL_append _ _ (noNL_append _ _ (noNL_append _ _ (noNL_append _ _
      (noNL_append _ _ (noNL_append _ _ (noNL_append _ _ (noNL_append _ _
      (noNL_append _ _ (noNL_append _ _ ?_ ?_) ?_) ?_) ?_) ?_) ?_) ?_) ?_)
      ?_) ?_) ?_) ?_) ?_) ?_
    · decide
    · exact noNL_jsonQuote _
    · decide
    · exact noNL_jsonQuote _
    · decide
    · exact noNL_jsonQuote _
    · decide
    · exact noNL_jsonQuote _
    · decide
    · exact noNL_jsonQuote _
    · decide
    · exact noNL_jsonBool _
    · decide
    · exact noNL_jsonQuote _
    · decide
  | delete d =>
    show noNL (serializeDeleteEvt d)
    unfold serializeDeleteEvt
    refine noNL_append _ _ (noNL_append _ _ (noNL_append _ _ (noNL_append _ _
      ?_ ?_) ?_) ?_) ?_
    · decide
    · exact noNL_jsonQuote _
    · decide
    · exact noNL_jsonQuote _
    · decide

theorem ne_empty_of_append_left (a b : String) (h : a ≠ "") : a ++ b ≠ "" := by
  intro hcon
  apply h
  have hd : (a ++ b).data = [] := by rw [hcon]
  rw [String.data_append] at hd
  have ha : a.data = [] := (List.append_eq_nil.mp hd).1
  cases a with
  | mk d =>
    have hd' : d = [] := ha
    subst hd'
    rfl

theorem serializeEvt_ne_empty (evt : EvtObj) : serializeEvt evt ≠ "" := by
  cases evt with
  | create e =>
    show serializeCreateEvt e ≠ ""
    unfold serializeCreateEvt
    repeat apply ne_empty_of_append_left
    decide
  | delete d =>
    show serializeDeleteEvt d ≠ ""
    unfold serializeDeleteEvt
    repeat apply ne_empty_of_append_left
    decide

/-!
Determinism of the fold up to the `createdAt` fallback, one delete step,
and the metrics partition.
-/

theorem mkTask_now_irrelevant (n1 n2 : String) (e : JsEvent)
    (h : jsTruthy e.createdAt) : mkTask n1 e = mkTask n2 e := by
  obtain ⟨hne, hne'⟩ := h
  cases hca : e.createdAt with
  | none => exact absurd hca hne
  | some s =>
    have hs : ¬ s = "" := by
      intro hs
      exact hne' (by rw [hca, hs])
    simp [mkTask, jsStrOr, hca, hs]

theorem runLines_now_irrelevant (lines : List (Option JsEvent)) (n1 n2 : String)
    (h : ∀ e : JsEvent, some e ∈ lines → e.type = some "create" → jsTruthy e.createdAt) :
    ∀ m : TaskMap, runLines n1 m lines = runLines n2 m lines := by
  induction lines with
  | nil => intro m; rfl
  | cons l ls ih =>
    intro m
    have hls : ∀ e : JsEvent, some e ∈ ls → e.type = some "create" → jsTruthy e.createdAt :=
      fun e he ht => h e (List.mem_cons_of_mem l he) ht
    have hfl : foldLine n1 m l = foldLine n2 m l := by
      cases l with
      | none => rfl
      | some e =>
        show applyEvt n1 m e = applyEvt n2 m e
        by_cases hc : e.type = some "create"
        · have htr := h e (List.mem_cons_self _ ls) hc
          simp [applyEvt, hc, mkTask_now_irrelevant n1 n2 e htr]
        · simp [applyEvt, hc]
    show runLines n1 (foldLine n1 m l) ls = runLines n2 (foldLine n2 m l) ls
    rw [hfl]
    exact ih hls _

theorem foldLine_delete (pnow i t : String) (M : TaskMap) :
    foldLine pnow M (some (DeleteEvt.toJsEvent ⟨i, t⟩)) = mapDelete M i := by
  show applyEvt pnow M (DeleteEvt.toJsEvent ⟨i, t⟩) = mapDelete M i
  have h1 : (DeleteEvt.toJsEvent ⟨i, t⟩).type = some "delete" := rfl
  have h2 : (DeleteEvt.toJsEvent ⟨i, t⟩).id = i := rfl
  unfold applyEvt
  rw [h1, h2, if_neg (by decide), if_pos rfl]

theorem runLines_one_delete (pnow i t : String) (M : TaskMap) :
    runLines pnow M [some (DeleteEvt.toJsEvent ⟨i, t⟩)] = mapDelete M i :=
  foldLine_delete pnow i t M

theorem length_filter_priority (l : List Task) :
    l.length = (l.filter (fun t => t.priority)).length
      + (l.filter (fun t => !t.priority)).length := by
  induction l with
  | nil => rfl
  | cons t ts ih =>
    cases hp : t.priority <;> simp [List.filter_cons, hp, ih] <;> omega

/-!
Concrete fixtures used by the per-claim counterexamples and witnesses.
-/

/-- A request whose name is a single space: truthy in JS, empty once trimmed. -/
def wsReq : CreateReq :=
  { name := some " ", date := none, time := none, description := none, priority := false }

/-- An ordinary valid create request. -/
def okReq : CreateReq :=
  { name := some "Buy milk", date := some "2099-01-01", time := some "10:00",
    description := none, priority := false }

/-- A priority create request that also supplies a date and a time. -/
def priReq : CreateReq :=
  { name := some "Urgent", date := some "2024-01-01", time := some "10:00",
    description := none, priority := true }

/-- A parsed create event that carries no `createdAt` field. -/
def noStampEvt : JsEvent :=
  { type := some "create", id := "a", name := some "task a", date := none,
    time := none, description := none, priority := false,
    createdAt := none, deletedAt := none }

/-- A parsed create event with id `a` and a `createdAt` stamp. -/
def evtA : JsEvent :=
  { type := some "create", id := "a", name := some "task a", date := some "",
    time := some "", description := some "", priority := false,
    createdAt := some "2024-01-01T00:00:00.000Z", deletedAt := none }

/-- A parsed create event with id `b` and a `createdAt` stamp. -/
def evtB : JsEvent :=
  { type := some "create", id := "b", name := some "task b", date := some "",
    time := some "", description := some "", priority := false,
    createdAt := some "2024-01-02T00:00:00.000Z", deletedAt := none }

/-- A parsed delete event for id `b`. -/
def delB : JsEvent := DeleteEvt.toJsEvent ⟨"b", "2024-01-03T00:00:00.000Z"⟩

/-- A non-priority task dated far in the future. -/
def schedTask : Task :=
  { id := "s1", name := some "future", date := "2099-01-01", time := "10:00",
    description := "", priority := false, createdAt := "c" }

/-!
Claim C1.
-/

/-- C1 counterexample: with the storage read failing, `GET /api/tasks` does
not answer `500 {ok:false}` — `readProjection` swallows the failure and the
handler answers `200 {ok:true, tasks:[]}`, a successful empty task list. -/
theorem C1_counterexample :
    (getTasksHandler (.error ()) "2024-01-01T00:00:00.000Z").status = 200
    ∧ (getTasksHandler (.error ()) "2024-01-01T00:00:00.000Z").ok = true
    ∧ (getTasksHandler (.error ()) "2024-01-01T00:00:00.000Z").tasks = some []
    ∧ (getTasksHandler (.error ()) "2024-01-01T00:00:00.000Z").status ≠ 500 := by
  decide

/-- C1 (amended): write failures are surfaced as a service failure — POST
with a valid name and DELETE with a non-empty id answer `500 {ok:false}`
when the append fails, recording nothing — but a failing read is caught
inside `readProjection`, which returns `[]`, so `GET /api/tasks` answers
`200 {ok:true, tasks:[]}` instead of a 500. -/
theorem C1_storage_failure (req : CreateReq) (i now n : String)
    (hname : req.name = some n) (hn : n ≠ "") (hid : i ≠ "") :
    getTasksHandler (.error ()) now = { status := 200, ok := true, tasks := some [] }
    ∧ (postTasksHandler req i now false).1.status = 500
    ∧ (postTasksHandler req i now false).1.ok = false
    ∧ (postTasksHandler req i now false).2 = []
    ∧ (deleteTasksHandler i now false).1.status = 500
    ∧ (deleteTasksHandler i now false).1.ok = false
    ∧ (deleteTasksHandler i now false).2 = [] := by
  refine ⟨rfl, ?_, ?_, ?_, ?_, ?_, ?_⟩ <;>
    simp [postTasksHandler, deleteTasksHandler, hname, hn, hid]

/-- C1 witness: the amended statement at a concrete request and id. -/
theorem C1_witness :
    getTasksHandler (.error ()) "T" = { status := 200, ok := true, tasks := some [] }
    ∧ (postTasksHandler okReq "t1" "T" false).1.status = 500
    ∧ (postTasksHandler okReq "t1" "T" false).1.ok = false
    ∧ (postTasksHandler okReq "t1" "T" false).2 = []
    ∧ (deleteTasksHandler "t1" "T" false).1.status = 500
    ∧ (deleteTasksHandler "t1" "T" false).1.ok = false
    ∧ (deleteTasksHandler "t1" "T" false).2 = [] :=
  C1_storage_failure okReq "t1" "T" "Buy milk" rfl (by decide) (by decide)

/-!
Claim C2.
-/

/-- C2 counterexample: on a log whose single create line carries no
`createdAt`, two replays invoked at different clock readings disagree — the
`createdAt` fallback stamps each replay with its own current time. -/
theorem C2_counterexample :
    readProjection (.ok [some noStampEvt]) "2024-01-01T00:00:00.000Z"
      ≠ readProjection (.ok [some noStampEvt]) "2024-01-02T00:00:00.000Z" := by
  decide

/-- C2 (amended): replaying the same lines yields the same task list,
`createdAt` included, provided every create event in the log carries a
non-empty `createdAt` (as every event written by this server does); only
the `createdAt || new Date().toISOString()` fallback depends on the clock. -/
theorem C2_determinism (lines : List (Option JsEvent)) (n1 n2 : String)
    (h : ∀ e : JsEvent, some e ∈ lines → e.type = some "create" → jsTruthy e.createdAt) :
    readProjection (.ok lines) n1 = readProjection (.ok lines) n2 := by
  show (runLines n1 [] lines).map _ = (runLines n2 [] lines).map _
  rw [runLines_now_irrelevant lines n1 n2 h []]

/-- C2 witness: two replays of a stamped create line at different clock
readings agree. -/
theorem C2_witness :
    jsTruthy evtA.createdAt
    ∧ readProjection (.ok [some evtA]) "2030-01-01T00:00:00.000Z"
        = readProjection (.ok [some evtA]) "2031-01-01T00:00:00.000Z" :=
  ⟨by decide,
   C2_determinism [some evtA] "2030-01-01T00:00:00.000Z" "2031-01-01T00:00:00.000Z"
     (by
       intro e he ht
       have he' : e = evtA := by simpa using he
       rw [he']
       decide)⟩

/-!
Claim C3.
-/

/-- C3 counterexample: a whitespace-only name is truthy, so the `!name`
check passes and the handler answers 201 — not the 400 the claim requires —
while the stored event name trims to the empty string. -/
theorem C3_counterexample :
    (postTasksHandler wsReq "t1" "T" true).1.status = 201
    ∧ (postTasksHandler wsReq "t1" "T" true).1.ok = true
    ∧ (buildCreateEvent " " wsReq "t1" "T").name = "" := by
  decide

/-- C3 (amended): `POST /api/tasks` answers `400 {ok:false}` exactly when
the name is absent or the empty string, checked before any trimming; every
other name — whitespace-only names included — yields `201 {ok:true}` when
the append succeeds, and trimming happens only in the stored event. -/
theorem C3_validation (req : CreateReq) (i now : String) :
    (((postTasksHandler req i now true).1.status = 400
        ∧ (postTasksHandler req i now true).1.ok = false)
      ↔ (req.name = none ∨ req.name = some ""))
    ∧ (∀ n : String, req.name = some n → n ≠ "" →
        (postTasksHandler req i now true).1.status = 201
        ∧ (postTasksHandler req i now true).1.ok = true) := by
  constructor
  · cases hn : req.name with
    | none => simp [postTasksHandler, hn]
    | some n => by_cases h : n = "" <;> simp [postTasksHandler, hn, h]
  · intro n hn hne
    simp [postTasksHandler, hn, hne]

/-- C3 witness: the amended statement at a concrete valid request. -/
theorem C3_witness :
    (((postTasksHandler okReq "t1" "T" true).1.status = 400
        ∧ (postTasksHandler okReq "t1" "T" true).1.ok = false)
      ↔ (okReq.name = none ∨ okReq.name = some ""))
    ∧ ((postTasksHandler okReq "t1" "T" true).1.status = 201
        ∧ (postTasksHandler okReq "t1" "T" true).1.ok = true) :=
  ⟨(C3_validation okReq "t1" "T").1,
   (C3_validation okReq "t1" "T").2 "Buy milk" rfl (by decide)⟩

/-!
Claim C4.
-/

/-- C4: folding events in log order realizes last-create-wins semantics —
the projection entry for an id is decided by the last create/delete event
carrying that id (a later create overwrites all prior fields, a delete
removes the entry), and a delete with no matching prior create leaves the
whole mapping unchanged. -/
theorem C4_fold_semantics :
    (∀ (evts : List JsEvent) (now i : String),
      mapLookup (runEvents now [] evts) i = specLastWins now evts i)
    ∧ (∀ (evts : List JsEvent) (now : String) (d : JsEvent),
      d.type = some "delete" →
      (∀ e ∈ evts, ¬(e.type = some "create" ∧ e.id = d.id)) →
      runEvents now [] (evts ++ [d]) = runEvents now [] evts) := by
  constructor
  · intro evts now i
    rw [mapLookup_runEvents now i evts []]
    unfold specLastWins
    cases (evts.filter (touches i)).getLast? with
    | none => rfl
    | some e => rfl
  · intro evts now d hd hnone
    have step : runEvents now [] (evts ++ [d])
        = applyEvt now (runEvents now [] evts) d := by
      simp [runEvents, List.foldl_append]
    rw [step]
    have happ : applyEvt now (runEvents now [] evts) d
        = mapDelete (runEvents now [] evts) d.id := by
      unfold applyEvt
      rw [hd, if_neg (by decide), if_pos rfl]
    rw [happ]
    apply mapDelete_not_mem
    intro hmem
    rcases mem_mapKeys_runEvents now d.id evts [] hmem with h | ⟨e, he, hc, hid⟩
    · simp [mapKeys] at h
    · exact hnone e he ⟨hc, hid⟩

/-- C4 witness: both parts at concrete event lists. -/
theorem C4_witness :
    mapLookup (runEvents "T" [] [evtA, evtB]) "a" = specLastWins "T" [evtA, evtB] "a"
    ∧ runEvents "T" [] ([evtA] ++ [delB]) = runEvents "T" [] [evtA] :=
  ⟨C4_fold_semantics.1 [evtA, evtB] "T" "a",
   C4_fold_semantics.2 [evtA] "T" delB rfl (by decide)⟩

/-!
Claim C5.
-/

/-- C5: a log of N valid create events with distinct ids plus one line that
fails to parse, wherever that line sits, projects to exactly N tasks; the
bad line is skipped (nothing is raised in the fold) and folding continues. -/
theorem C5_malformed_line_tolerance (c1 c2 : List JsEvent) (now : String)
    (hall : ∀ e ∈ c1 ++ c2, e.type = some "create")
    (hnd : ((c1 ++ c2).map (fun e => e.id)).Nodup) :
    (readProjection (.ok (c1.map some ++ none :: c2.map some)) now).length
      = (c1 ++ c2).length := by
  show ((runLines now [] (c1.map some ++ none :: c2.map some)).map _).length = _
  rw [List.length_map]
  have h1 : runLines now [] (c1.map some ++ none :: c2.map some)
      = runLines now [] ((c1 ++ c2).map some) := by
    rw [runLines_skip, List.map_append]
  rw [h1, runLines_map_some]
  have h2 := length_runEvents_creates now (c1 ++ c2) [] hall hnd
    (by intro e _; simp [mapKeys])
  simpa using h2

/-- C5 witness: two creates with distinct ids around one unparseable line
project to exactly two tasks. -/
theorem C5_witness :
    (readProjection (.ok ([evtA].map some ++ none :: [evtB].map some)) "T").length
      = ([evtA] ++ [evtB]).length :=
  C5_malformed_line_tolerance [evtA] [evtB] "T" (by decide) (by decide)

/-!
Claim C6.
-/

/-- C6: a create request with a truthy `priority` produces an event whose
`date` and `time` are forced to the empty string whatever the request
supplied, and the task projected back from that event keeps them empty. -/
theorem C6_priority_forcing (n : String) (req : CreateReq) (i now pnow : String)
    (hp : req.priority = true) :
    (buildCreateEvent n req i now).date = ""
    ∧ (buildCreateEvent n req i now).time = ""
    ∧ (mkTask pnow (CreateEvt.toJsEvent (buildCreateEvent n req i now))).date = ""
    ∧ (mkTask pnow (CreateEvt.toJsEvent (buildCreateEvent n req i now))).time = "" := by
  simp [buildCreateEvent, CreateEvt.toJsEvent, mkTask, jsStrOr, hp]

/-- C6 witness: a priority request that supplies a date and a time still
yields an event and a projected task with empty date and time. -/
theorem C6_witness :
    priReq.priority = true
    ∧ ((buildCreateEvent "Urgent" priReq "t1" "T").date = ""
      ∧ (buildCreateEvent "Urgent" priReq "t1" "T").time = ""
      ∧ (mkTask "P" (CreateEvt.toJsEvent (buildCreateEvent "Urgent" priReq "t1" "T"))).date = ""
      ∧ (mkTask "P" (CreateEvt.toJsEvent (buildCreateEvent "Urgent" priReq "t1" "T"))).time = "") :=
  ⟨rfl, C6_priority_forcing "Urgent" priReq "t1" "T" "P" rfl⟩

/-!
Claim C7.
-/

/-- C7: deleting never errors — `DELETE /api/tasks/:id` answers
`200 {ok:true}` without consulting the projection, even for an id that was
never created; a second delete of the same id changes nothing, and a delete
leaves the projection entry of every other id untouched. -/
theorem C7_idempotent_delete (i now : String) (hi : i ≠ "") :
    ((deleteTasksHandler i now true).1.status = 200
      ∧ (deleteTasksHandler i now true).1.ok = true
      ∧ (deleteTasksHandler i now true).2 = [⟨i, now⟩])
    ∧ (∀ (lines : List (Option JsEvent)) (pnow t1 t2 : String),
        runLines pnow [] (lines ++ [some (DeleteEvt.toJsEvent ⟨i, t1⟩),
            some (DeleteEvt.toJsEvent ⟨i, t2⟩)])
          = runLines pnow [] (lines ++ [some (DeleteEvt.toJsEvent ⟨i, t1⟩)]))
    ∧ (∀ (lines : List (Option JsEvent)) (pnow t j : String), j ≠ i →
        mapLookup (runLines pnow [] (lines ++ [some (DeleteEvt.toJsEvent ⟨i, t⟩)])) j
          = mapLookup (runLines pnow [] lines) j) := by
  refine ⟨?_, ?_, ?_⟩
  · simp [deleteTasksHandler, hi]
  · intro lines pnow t1 t2
    have hsplit : lines ++ [some (DeleteEvt.toJsEvent ⟨i, t1⟩),
        some (DeleteEvt.toJsEvent ⟨i, t2⟩)]
        = (lines ++ [some (DeleteEvt.toJsEvent ⟨i, t1⟩)])
          ++ [some (DeleteEvt.toJsEvent ⟨i, t2⟩)] := by
      simp
    rw [hsplit, runLines_append, runLines_append, runLines_one_delete,
      runLines_one_delete, mapDelete_delete]
  · intro lines pnow t j hj
    rw [runLines_append, runLines_one_delete]
    exact mapLookup_delete_ne _ i j hj

/-- C7 witness: the statement at the id `does-not-exist` over a log holding
one unrelated create. -/
theorem C7_witness :
    (deleteTasksHandler "does-not-exist" "T" true).1.status = 200
    ∧ (deleteTasksHandler "does-not-exist" "T" true).1.ok = true
    ∧ runLines "P" [] ([some evtA] ++ [some (DeleteEvt.toJsEvent ⟨"does-not-exist", "d1"⟩),
          some (DeleteEvt.toJsEvent ⟨"does-not-exist", "d2"⟩)])
        = runLines "P" [] ([some evtA] ++ [some (DeleteEvt.toJsEvent ⟨"does-not-exist", "d1"⟩)])
    ∧ mapLookup (runLines "P" [] ([some evtA]
          ++ [some (DeleteEvt.toJsEvent ⟨"does-not-exist", "d1"⟩)])) "a"
        = mapLookup (runLines "P" [] [some evtA]) "a" :=
  ⟨(C7_idempotent_delete "does-not-exist" "T" (by decide)).1.1,
   (C7_idempotent_delete "does-not-exist" "T" (by decide)).1.2.1,
   (C7_idempotent_delete "does-not-exist" "T" (by decide)).2.1 [some evtA] "P" "d1" "d2",
   (C7_idempotent_delete "does-not-exist" "T" (by decide)).2.2 [some evtA] "P" "d1" "a"
     (by decide)⟩

/-!
Claim C8.
-/

/-- C8: a non-priority task is grouped as Scheduled exactly when its due
timestamp parses and is strictly later than now; a task due exactly now is
Active, and a task with an empty date or time has no due timestamp and is
never Scheduled. -/
theorem C8_scheduled_boundary (t : Task) (now : Int) (hp : t.priority = false) :
    ((classify now t = .scheduled) ↔ (∃ due : Int, taskDueTs t = some due ∧ now < due))
    ∧ (taskDueTs t = some now → classify now t = .active)
    ∧ ((t.date = "" ∨ t.time = "") → taskDueTs t = none ∧ classify now t ≠ .scheduled) := by
  have hcl : classify now t =
      match taskDueTs t with
      | none => .active
      | some due => if due > now then .scheduled else .active := by
    unfold classify
    rw [hp]
    rfl
  refine ⟨?_, ?_, ?_⟩
  · rw [hcl]
    cases hd : taskDueTs t with
    | none => simp
    | some due =>
      by_cases hlt : due > now
      · simp [hlt]
      · simp [hlt]
  · intro hd
    rw [hcl, hd]
    simp
  · intro hdt
    have hnone : taskDueTs t = none := by
      unfold taskDueTs
      rw [if_pos hdt]
    refine ⟨hnone, ?_⟩
    rw [hcl, hnone]
    simp

/-- C8 witness: a dated future task at clock reading 0. -/
theorem C8_witness :
    schedTask.priority = false
    ∧ (((classify 0 schedTask = .scheduled)
        ↔ (∃ due : Int, taskDueTs schedTask = some due ∧ 0 < due))
      ∧ (taskDueTs schedTask = some 0 → classify 0 schedTask = .active)
      ∧ ((schedTask.date = "" ∨ schedTask.time = "") →
          taskDueTs schedTask = none ∧ classify 0 schedTask ≠ .scheduled)) :=
  ⟨rfl, C8_scheduled_boundary schedTask 0 rfl⟩

/-!
Claim C9.
-/

theorem data_ne_nil_of_ne_empty (s : String) (h : s ≠ "") : s.data ≠ [] := by
  intro hd
  apply h
  cases s with
  | mk d =>
    have hd' : d = [] := hd
    subst hd'
    rfl

theorem mk_data (s : String) : String.mk s.data = s := by
  cases s with
  | mk d => rfl

/-- C9: appending an event to a well-formed log leaves every prior byte in
place (the new content is the old content plus the serialized line and an
LF), the serialized line is non-empty and contains no newline, and the
resulting line sequence is exactly the prior line sequence with that one
line added at the end. -/
theorem C9_append_only (ls : List String) (evt : EvtObj) (h : ∀ l ∈ ls, noNL l) :
    appendEvent (linesJoin ls) evt = linesJoin ls ++ serializeEvt evt ++ "\n"
    ∧ noNL (serializeEvt evt)
    ∧ serializeEvt evt ≠ ""
    ∧ logLines (appendEvent (linesJoin ls) evt)
        = logLines (linesJoin ls) ++ [serializeEvt evt] := by
  refine ⟨rfl, noNL_serializeEvt evt, serializeEvt_ne_empty evt, ?_⟩
  have hser : '\n' ∉ (serializeEvt evt).data := noNL_serializeEvt evt
  have hdata : (appendEvent (linesJoin ls) evt).data
      = (linesJoin ls).data ++ ((serializeEvt evt).data ++ '\n' :: []) := by
    show (linesJoin ls ++ serializeEvt evt ++ "\n").data = _
    rw [String.data_append, String.data_append]
    simp
  have hL : splitLines (appendEvent (linesJoin ls) evt).data
      = ls.map String.data ++ ((serializeEvt evt).data :: splitLines []) := by
    rw [hdata, splitLines_linesJoin_append ls _ h, splitLines_append_nl _ _ hser]
  have hR : splitLines (linesJoin ls).data = ls.map String.data ++ [[]] := by
    have h0 := splitLines_linesJoin_append ls [] h
    rw [List.append_nil] at h0
    exact h0
  obtain ⟨c, cs, hcons⟩ : ∃ c cs, (serializeEvt evt).data = c :: cs := by
    cases hx : (serializeEvt evt).data with
    | nil => exact absurd hx (data_ne_nil_of_ne_empty _ (serializeEvt_ne_empty evt))
    | cons c cs => exact ⟨c, cs, rfl⟩
  unfold logLines
  rw [hL, hR, hcons]
  have hsp : splitLines ([] : List Char) = [[]] := rfl
  rw [hsp]
  simp only [List.filter_append, List.map_append]
  have hfilters : ([c :: cs, []].filter (fun l => !l.isEmpty)) = [c :: cs] := rfl
  have hfilter0 : (([[]] : List (List Char)).filter (fun l => !l.isEmpty)) = [] := rfl
  rw [hfilters, hfilter0]
  simp [← hcons, mk_data]

/-- C9 witness: appending a delete event to a one-line log. -/
theorem C9_witness :
    appendEvent (linesJoin ["prev"]) (EvtObj.delete ⟨"x", "D"⟩)
        = linesJoin ["prev"] ++ serializeEvt (EvtObj.delete ⟨"x", "D"⟩) ++ "\n"
    ∧ noNL (serializeEvt (EvtObj.delete ⟨"x", "D"⟩))
    ∧ serializeEvt (EvtObj.delete ⟨"x", "D"⟩) ≠ ""
    ∧ logLines (appendEvent (linesJoin ["prev"]) (EvtObj.delete ⟨"x", "D"⟩))
        = logLines (linesJoin ["prev"]) ++ [serializeEvt (EvtObj.delete ⟨"x", "D"⟩)] :=
  C9_append_only ["prev"] (EvtObj.delete ⟨"x", "D"⟩) (by decide)

/-!
Claim C10.
-/

/-- C10: on every read result and clock reading, the `/metrics` counters
satisfy `total_tasks = priority_tasks + regular_tasks` — the boolean
`priority` field partitions the projected task list exactly. -/
theorem C10_metrics_partition (r : Except Unit (List (Option JsEvent))) (now : String) :
    (metricsHandler r now).total_tasks
      = (metricsHandler r now).priority_tasks + (metricsHandler r now).regular_tasks := by
  show (readProjection r now).length = _
  exact length_filter_priority (readProjection r now)

end TaskTracker
